import Mathlib

/-!
Shallow embedding of `src/simple_vector.h` (class `SimpleVector<Type>`).

The element type `Type` is modelled as `Nat`, matching an `int`-like
trivially movable, default-constructible element whose value-initialized
state `Type()` is `0`.  The raw buffer owned through `ArrayPtr<Type>` is
modelled as a `List Nat`; machine pointers/iterators are modelled as
indices from `begin()`.

Two modelling conventions for undefined behaviour of the source:
an out-of-range read through `ArrayPtr::operator[]` yields the default
value `0`, and an out-of-range store is a no-op (`List.set` out of range).
Both are flagged where they matter.

A recurring quirk of the source: several fill sites call the three-argument
algorithm `std::move(first, last, d)` passing a plain `Type` VALUE as the
destination-iterator argument `d` (e.g. `std::move(begin(), end(), Type())`
in the size constructor and in `Resize`, `std::move(begin(), end(), value)`
in the fill constructor).  That algorithm moves the elements of
`[first, last)` out into the destination; it never writes the value into
the buffer (for a scalar `Type` it is in fact ill-formed).  For a trivially
movable element, moving a slot out leaves the slot's value unchanged, so
these calls are modelled as the identity on the buffer, `moveToValueDest`.
-/

/-- Modelled from the spec: `array_ptr.h` (the "Raw Buffer Owner",
`ArrayPtr<Type>`) is not under `src/`.  Spec §4.1: "Construct(capacity):
allocates a block of `capacity` default-initialized elements (capacity 0
allowed, yields an empty/null block)"; §2 calls it "a zero-initialized
block of N elements".  The block is a list of `n` zeros. -/
def arrayPtrAlloc (n : Nat) : List Nat := List.replicate n 0

/-- Read a buffer slot (`ArrayPtr::operator[]`).  An out-of-range read is
undefined behaviour in the source; it is modelled as the default value. -/
def bufRead (l : List Nat) (i : Nat) : Nat := l.getD i 0

/-- Write a buffer slot (`items_[i] = x`).  An out-of-range store is
undefined behaviour in the source; it is modelled as a no-op
(`List.set` leaves the list unchanged out of range). -/
def bufWrite (l : List Nat) (i : Nat) (x : Nat) : List Nat := l.set i x

/-- State of a `SimpleVector<Type>`: the fields `size_`, `capacity_` and
the block owned by `items_`. -/
structure SimpleVector where
  size : Nat
  capacity : Nat
  items : List Nat
deriving Repr, DecidableEq

deriving instance DecidableEq for Except

namespace SimpleVector

/-- `std::move(first, last, d)` with a `Type` value as the destination
"iterator" `d`: the elements are moved out into a discarded temporary and
nothing is written into the buffer, so for a trivially movable element the
buffer is unchanged (see the file comment; for scalar `Type` the call is
ill-formed).  Used by the size/fill constructors and `Resize`. -/
def moveToValueDest (l : List Nat) : List Nat := l

/-- `SimpleVector() noexcept = default`: `size_ = 0`, `capacity_ = 0`,
default `ArrayPtr` (null block). -/
def simpleVectorDefault : SimpleVector := ⟨0, 0, []⟩

/-- `explicit SimpleVector(size_t size)`: `size_ = capacity_ = size`,
`items_(size)`, then `std::move(begin(), end(), Type())`. -/
def ctorSize (n : Nat) : SimpleVector :=
  ⟨n, n, moveToValueDest (arrayPtrAlloc n)⟩

/-- `SimpleVector(size_t size, const Type& value)`: `size_ = capacity_ =
size`, `items_(size)`, then `std::move(begin(), end(), value)` — the fill
value is the destination argument of `std::move`, so it is never written
into the buffer (the parameter is unused in the model, exactly as the
buffer never receives it in the source). -/
def ctorFill (n : Nat) (_value : Nat) : SimpleVector :=
  ⟨n, n, moveToValueDest (arrayPtrAlloc n)⟩

/-- `SimpleVector(std::initializer_list<Type> init)`: buffer of
`init.size()` slots, `std::copy(init.begin(), init.end(), begin())`. -/
def ofList (l : List Nat) : SimpleVector := ⟨l.length, l.length, l⟩

/-- `SimpleVector(const SimpleVector& other)`: note the member
initializers `capacity_(other.capacity_)` but `items_(other.size_)` — the
fresh block has only `other.size_` slots, then
`std::copy(other.begin(), other.end(), begin())` fills them. -/
def copyCtor (o : SimpleVector) : SimpleVector :=
  ⟨o.size, o.capacity, (List.range o.size).map (fun i => bufRead o.items i)⟩

/-- `SimpleVector(SimpleVector&&)`: the new vector takes `other`'s size,
capacity and block; `other` is left with `size_ = capacity_ = 0` and a
moved-from (null) `ArrayPtr`.  Returns (new vector, moved-from source). -/
def moveCtor (o : SimpleVector) : SimpleVector × SimpleVector :=
  (⟨o.size, o.capacity, o.items⟩, ⟨0, 0, []⟩)

/-- `SimpleVector(ReserveProxyObj)`: `size_(0)`,
`capacity_(reserve_proxy_obj.capacity_to_reserve_)`, and `items_(size_)` —
the block is allocated with `size_` (that is, zero) slots, not with the
reserved capacity. -/
def reserveCtor (hint : Nat) : SimpleVector := ⟨0, hint, arrayPtrAlloc 0⟩

/-- `GetSize()`. -/
def GetSize (v : SimpleVector) : Nat := v.size

/-- `GetCapacity()`. -/
def GetCapacity (v : SimpleVector) : Nat := v.capacity

/-- `IsEmpty()`. -/
def IsEmpty (v : SimpleVector) : Bool := v.size == 0

/-- `operator[](size_t index)`: unchecked read `items_[index]`. -/
def opIndex (v : SimpleVector) (i : Nat) : Nat := bufRead v.items i

/-- `At(size_t index)`: `throw std::out_of_range("Invalid index")` when
`index >= size_`, otherwise `items_[index]`. -/
def At (v : SimpleVector) (i : Nat) : Except String Nat :=
  if v.size ≤ i then .error "Invalid index" else .ok (bufRead v.items i)

/-- `Clear() noexcept`: `size_ = 0`; capacity and block untouched. -/
def Clear (v : SimpleVector) : SimpleVector := { v with size := 0 }

/-- `Reserve(size_t new_capacity)`: when `new_capacity >= capacity_`,
allocate a fresh block of `new_capacity` default slots, move the first
`size_` elements into it, swap it in and set `capacity_`; otherwise do
nothing. -/
def Reserve (new_capacity : Nat) (v : SimpleVector) : SimpleVector :=
  if v.capacity ≤ new_capacity then
    ⟨v.size, new_capacity,
      (List.range new_capacity).map
        (fun i => if i < v.size then bufRead v.items i else 0)⟩
  else v

/-- `Resize(size_t new_size)`.  Branches as in the source:
`new_size < size_` truncates; `new_size <= capacity_` runs
`std::move(end(), &items_[capacity_], Type())` (a move OUT of the slots
`[size_, capacity_)` into a value destination — the buffer is unchanged,
see `moveToValueDest`) and sets the size; otherwise reserves
`max(new_size, 2 * capacity_)`, runs the same kind of move over
`[size_, new_size)` and sets the size. -/
def Resize (new_size : Nat) (v : SimpleVector) : SimpleVector :=
  if new_size < v.size then { v with size := new_size }
  else if new_size ≤ v.capacity then
    { v with items := moveToValueDest v.items, size := new_size }
  else
    let v' := Reserve (max new_size (2 * v.capacity)) v
    { v' with items := moveToValueDest v'.items, size := new_size }

/-- `PushBack(const Type& item)` (the `Type&&` overload behaves
identically for a trivially movable element): if `size_ < capacity_`,
store at `items_[size_]`; otherwise `Reserve(max(1ul, 2 * capacity_))`
first.  In both cases `++size_`.  The store at `items_[size_]` is out of
range (undefined behaviour, modelled as a no-op) whenever the block is
shorter than the capacity. -/
def PushBack (item : Nat) (v : SimpleVector) : SimpleVector :=
  if v.size < v.capacity then
    { v with items := bufWrite v.items v.size item, size := v.size + 1 }
  else
    let v' := Reserve (max 1 (2 * v.capacity)) v
    { v' with items := bufWrite v'.items v'.size item, size := v'.size + 1 }

/-- `std::move_backward(&items_[pos], &items_[sz], &items_[sz + 1])`:
slot `i` with `pos < i ≤ sz` receives the old slot `i - 1`; other slots
(including slot `pos`, which is only read) keep their values.  Writes past
the end of the block are undefined behaviour, modelled as dropped (the
result keeps the block's length). -/
def moveBackwardShift (l : List Nat) (pos sz : Nat) : List Nat :=
  (List.range l.length).map
    (fun i => if pos < i ∧ i ≤ sz then bufRead l (i - 1) else bufRead l i)

/-- Private helper `VectorMoveRigth(ConstIterator pos)` (source spelling):
`number_pos = distance(cbegin(), pos)`; if `size_ < capacity_`, shift
`[pos, end())` one slot right; else if `capacity_ == 0`, `Reserve(1)`;
else `Reserve(2 * capacity_)` then shift.  Always `++size_`; returns
`number_pos`. -/
def VectorMoveRigth (v : SimpleVector) (pos : Nat) : SimpleVector × Nat :=
  if v.size < v.capacity then
    ({ v with items := moveBackwardShift v.items pos v.size,
              size := v.size + 1 }, pos)
  else if v.capacity = 0 then
    let v' := Reserve 1 v
    ({ v' with size := v.size + 1 }, pos)
  else
    let v' := Reserve (2 * v.capacity) v
    ({ v' with items := moveBackwardShift v'.items pos v.size,
               size := v.size + 1 }, pos)

/-- `Insert(ConstIterator pos, const Type& value)` (the `Type&&` overload
is identical for a trivially movable element): `VectorMoveRigth(pos)`,
store the value at the returned slot, return an iterator to it (modelled
as the index). -/
def Insert (v : SimpleVector) (pos : Nat) (value : Nat) : SimpleVector × Nat :=
  let r := VectorMoveRigth v pos
  ({ r.1 with items := bufWrite r.1.items r.2 value }, r.2)

/-- `PopBack() noexcept`: `assert(!IsEmpty())`, then `--size_` guarded by
`if (!IsEmpty())` — a no-op on an empty vector. -/
def PopBack (v : SimpleVector) : SimpleVector :=
  if v.size == 0 then v else { v with size := v.size - 1 }

/-- `std::move(it + 1, end(), it)` inside `Erase`: slot `i` with
`pos ≤ i` and `i + 1 < sz` receives the old slot `i + 1`; the remaining
slots (in particular the old last slot, which is only moved from) keep
their values. -/
def moveForwardShift (l : List Nat) (pos sz : Nat) : List Nat :=
  (List.range l.length).map
    (fun i => if pos ≤ i ∧ i + 1 < sz then bufRead l (i + 1) else bufRead l i)

/-- `Erase(ConstIterator pos)`: `assert(pos != end())`, shift
`(pos, end())` one slot left, `--size_`, return `pos`.  Modelled under the
asserted precondition that the vector is non-empty (`Nat` subtraction
stands in for the `size_t` decrement). -/
def Erase (v : SimpleVector) (pos : Nat) : SimpleVector × Nat :=
  ({ v with items := moveForwardShift v.items pos v.size,
            size := v.size - 1 }, pos)

/-- `swap(SimpleVector&) noexcept`: exchanges `size_`, `capacity_` and the
blocks of the two vectors. -/
def swapSV (a b : SimpleVector) : SimpleVector × SimpleVector := (b, a)

/-- `operator=(const SimpleVector& rhs)`: guarded by `this != &rhs`
(`same` models that address comparison); otherwise copy-and-swap, leaving
`*this` equal to a copy of `rhs`. -/
def opAssignCopy (lhs rhs : SimpleVector) (same : Bool) : SimpleVector :=
  if same then lhs else copyCtor rhs

/-- `operator=(SimpleVector&& rhs)`: guarded by `this != &rhs`; otherwise
`tmp = move(rhs)` then swap — `*this` takes `rhs`'s old state and `rhs`
is left moved-from.  Returns (new `*this`, `rhs` afterwards). -/
def opAssignMove (lhs rhs : SimpleVector) (same : Bool) :
    SimpleVector × SimpleVector :=
  if same then (lhs, rhs) else ((moveCtor rhs).1, (moveCtor rhs).2)

/-- Free `operator==`: `lhs.GetSize() == rhs.GetSize() &&
std::equal(lhs.begin(), lhs.end(), rhs.begin())` — the element scan runs
over the first `lhs.GetSize()` slots of each side and is only reached when
the sizes agree. -/
def eqSV (lhs rhs : SimpleVector) : Bool :=
  lhs.size == rhs.size &&
    (List.range lhs.size).all (fun i => opIndex lhs i == opIndex rhs i)

/-- Free `operator!=`. -/
def neSV (lhs rhs : SimpleVector) : Bool := ! eqSV lhs rhs

/-- `std::lexicographical_compare(first1, last1, first2, last2)` on the
element sequences: mismatching element decides; a proper prefix is
smaller. -/
def lexCompareLt : List Nat → List Nat → Bool
  | _, [] => false
  | [], _ :: _ => true
  | a :: as, b :: bs =>
    if a < b then true else if b < a then false else lexCompareLt as bs

/-- The element sequence `[begin(), end())` of a vector: the first `size_`
slots, read through `operator[]`. -/
def elems (v : SimpleVector) : List Nat :=
  (List.range v.size).map (fun i => opIndex v i)

/-- Free `operator<`:
`std::lexicographical_compare(lhs.begin(), lhs.end(), rhs.begin(), rhs.end())`. -/
def ltSV (lhs rhs : SimpleVector) : Bool := lexCompareLt (elems lhs) (elems rhs)

/-- Free `operator<=` (`!(rhs < lhs)`). -/
def leSV (lhs rhs : SimpleVector) : Bool := ! ltSV rhs lhs

/-- Free `operator>` (`rhs < lhs`). -/
def gtSV (lhs rhs : SimpleVector) : Bool := ltSV rhs lhs

/-- Free `operator>=` (`!(lhs < rhs)` via `!(rhs > lhs)`). -/
def geSV (lhs rhs : SimpleVector) : Bool := ! ltSV lhs rhs

/-- The spec's data-model well-formedness for a vector: `size ≤ capacity`
and the owned block really has `capacity` slots (spec §3: "`capacity`
(allocated slots, always ≥ size)"). -/
def WF (v : SimpleVector) : Prop :=
  v.size ≤ v.capacity ∧ v.items.length = v.capacity

instance (v : SimpleVector) : Decidable (WF v) := by
  unfold WF; infer_instance

/-- States reachable by sequences of the public operations.  `swap`
produces no state beyond its two (already reachable) arguments, copy
assignment produces `copyCtor` states or leaves its target unchanged, and
move assignment produces the source's state and the moved-from state, so
those need no constructors of their own.  `Insert`/`Erase` are applied
under their documented preconditions (`pos` a valid position, `pos ≠ end`);
violating them is undefined behaviour (spec §7). -/
inductive Reachable : SimpleVector → Prop where
  | default_ctor : Reachable simpleVectorDefault
  | size_ctor (n : Nat) : Reachable (ctorSize n)
  | fill_ctor (n x : Nat) : Reachable (ctorFill n x)
  | list_ctor (l : List Nat) : Reachable (ofList l)
  | copy_ctor {v : SimpleVector} : Reachable v → Reachable (copyCtor v)
  | move_ctor_dst {v : SimpleVector} : Reachable v → Reachable (moveCtor v).1
  | move_ctor_src {v : SimpleVector} : Reachable v → Reachable (moveCtor v).2
  | reserve_ctor (hint : Nat) : Reachable (reserveCtor hint)
  | push {v : SimpleVector} (x : Nat) : Reachable v → Reachable (PushBack x v)
  | ins {v : SimpleVector} (pos x : Nat) : Reachable v → pos ≤ v.size →
      Reachable (Insert v pos x).1
  | ers {v : SimpleVector} (pos : Nat) : Reachable v → pos < v.size →
      Reachable (Erase v pos).1
  | pop {v : SimpleVector} : Reachable v → Reachable (PopBack v)
  | clear {v : SimpleVector} : Reachable v → Reachable (Clear v)
  | resize {v : SimpleVector} (n : Nat) : Reachable v → Reachable (Resize n v)
  | reserve {v : SimpleVector} (n : Nat) : Reachable v → Reachable (Reserve n v)

/-- The invariant asserted by claim C1 over a vector state: `0 ≤ size ≤
capacity`, the underlying buffer has (at least) `capacity` slots so that
the indices `[0, size)` and `[size, capacity)` exist, and every slot in
`[size, capacity)` holds the default-initialized value. -/
def claimedInvariant (v : SimpleVector) : Prop :=
  v.size ≤ v.capacity ∧ v.capacity ≤ v.items.length ∧
  ∀ i, v.size ≤ i → i < v.capacity → bufRead v.items i = 0

/-- The weaker invariant that every reachable state does satisfy:
`size ≤ capacity` and the block never has more than `capacity` slots. -/
def Inv (v : SimpleVector) : Prop :=
  v.size ≤ v.capacity ∧ v.items.length ≤ v.capacity

/-- `k` consecutive `PushBack` calls, left to right. -/
def pushMany (xs : List Nat) (v : SimpleVector) : SimpleVector :=
  xs.foldl (fun a x => PushBack x a) v

/-- Membership in the doubling-from-1 capacity chain `0 → 1 → 2 → 4 → 8 → …`. -/
def isChainValue (c : Nat) : Prop := c = 0 ∨ ∃ i : Nat, c = 2 ^ i

/-! ### A store-based view for aliasing claims (deep-copy independence)

A `SimpleVector` object owns its block through a raw pointer; to talk
about storage independence of two objects we make the blocks live in an
explicit store and let each object hold the address (`buf`) of its block.
Reallocation inside an operation replaces the content at the object's own
address; a copy allocates a fresh address.  Out-of-range addresses
dereference to the null block `[]`. -/

/-- A vector object whose block lives in a store: `size_`, `capacity_`,
and the address of its block. -/
structure SVRef where
  size : Nat
  capacity : Nat
  buf : Nat
deriving Repr, DecidableEq

/-- The heap of allocated blocks, addressed by position. -/
abbrev Store := List (List Nat)

/-- Read a vector object's state out of the store. -/
def derefSV (s : Store) (r : SVRef) : SimpleVector :=
  ⟨r.size, r.capacity, s.getD r.buf []⟩

/-- The mutating public operations quantified over by claim C8. -/
inductive MutOp where
  | push (x : Nat)
  | ins (pos x : Nat)
  | ers (pos : Nat)
  | pop
  | clr
  | rsz (n : Nat)
  | rsv (n : Nat)
deriving Repr, DecidableEq

/-- The pure effect of a mutating operation on a vector state. -/
def applyMut : MutOp → SimpleVector → SimpleVector
  | .push x, v => PushBack x v
  | .ins pos x, v => (Insert v pos x).1
  | .ers pos, v => (Erase v pos).1
  | .pop, v => PopBack v
  | .clr, v => Clear v
  | .rsz n, v => Resize n v
  | .rsv n, v => Reserve n v

/-- Run a mutating operation on the object `r`: only the block at `r.buf`
is rewritten (every operation of the source reads and writes through the
object's own `items_`, swapping in a freshly built block on growth). -/
def applyMutRef (m : MutOp) (s : Store) (r : SVRef) : Store × SVRef :=
  let v := applyMut m (derefSV s r)
  (s.set r.buf v.items, ⟨v.size, v.capacity, r.buf⟩)

/-- Copy construction in the store view: the copy's block is a fresh
allocation (a new address at the end of the store). -/
def copyCtorRef (s : Store) (r : SVRef) : Store × SVRef :=
  let c := copyCtor (derefSV s r)
  (s ++ [c.items], ⟨c.size, c.capacity, s.length⟩)

/-! ### Basic buffer lemmas -/

theorem bufRead_map_range (f : Nat → Nat) (n i : Nat) :
    bufRead ((List.range n).map f) i = if i < n then f i else 0 := by
  unfold bufRead
  rw [List.getD_eq_getElem?_getD, List.getElem?_map]
  rcases Nat.lt_or_ge i n with h | h
  · rw [List.getElem?_range h]
    simp [h]
  · rw [List.getElem?_eq_none (by simpa using h)]
    simp [Nat.not_lt.mpr h]

theorem bufRead_replicate (n i : Nat) : bufRead (List.replicate n 0) i = 0 := by
  unfold bufRead
  rw [List.getD_eq_getElem?_getD]
  rcases Nat.lt_or_ge i n with h | h
  · rw [List.getElem?_replicate_of_lt h]; rfl
  · rw [List.getElem?_eq_none (by simpa using h)]; rfl

theorem bufRead_arrayPtrAlloc (n i : Nat) : bufRead (arrayPtrAlloc n) i = 0 :=
  bufRead_replicate n i

theorem bufRead_bufWrite_self (l : List Nat) (i x : Nat) (h : i < l.length) :
    bufRead (bufWrite l i x) i = x := by
  unfold bufRead bufWrite
  rw [List.getD_eq_getElem?_getD, List.getElem?_set_self h]
  rfl

theorem bufRead_bufWrite_ne (l : List Nat) (i j x : Nat) (h : i ≠ j) :
    bufRead (bufWrite l i x) j = bufRead l j := by
  unfold bufRead bufWrite
  rw [List.getD_eq_getElem?_getD, List.getElem?_set_ne h,
    List.getD_eq_getElem?_getD]

theorem length_bufWrite (l : List Nat) (i x : Nat) :
    (bufWrite l i x).length = l.length := by
  unfold bufWrite; exact List.length_set l i x

theorem length_moveBackwardShift (l : List Nat) (pos sz : Nat) :
    (moveBackwardShift l pos sz).length = l.length := by
  unfold moveBackwardShift; simp

theorem length_moveForwardShift (l : List Nat) (pos sz : Nat) :
    (moveForwardShift l pos sz).length = l.length := by
  unfold moveForwardShift; simp

theorem bufRead_moveBackwardShift (l : List Nat) (pos sz i : Nat) :
    bufRead (moveBackwardShift l pos sz) i =
      if i < l.length then
        (if pos < i ∧ i ≤ sz then bufRead l (i - 1) else bufRead l i)
      else 0 := by
  unfold moveBackwardShift; exact bufRead_map_range _ _ _

theorem bufRead_moveForwardShift (l : List Nat) (pos sz i : Nat) :
    bufRead (moveForwardShift l pos sz) i =
      if i < l.length then
        (if pos ≤ i ∧ i + 1 < sz then bufRead l (i + 1) else bufRead l i)
      else 0 := by
  unfold moveForwardShift; exact bufRead_map_range _ _ _

/-! ### Effect of `Reserve` -/

theorem Reserve_of_le (v : SimpleVector) (n : Nat) (h : v.capacity ≤ n) :
    Reserve n v =
      ⟨v.size, n, (List.range n).map
        (fun i => if i < v.size then bufRead v.items i else 0)⟩ := by
  unfold Reserve; simp [h]

theorem Reserve_size (v : SimpleVector) (n : Nat) : (Reserve n v).size = v.size := by
  unfold Reserve; split <;> rfl

theorem Reserve_length_of_le (v : SimpleVector) (n : Nat) (h : v.capacity ≤ n) :
    (Reserve n v).items.length = n := by
  rw [Reserve_of_le v n h]; simp

theorem Reserve_capacity_of_le (v : SimpleVector) (n : Nat) (h : v.capacity ≤ n) :
    (Reserve n v).capacity = n := by
  rw [Reserve_of_le v n h]

theorem Reserve_bufRead_of_le (v : SimpleVector) (n : Nat) (h : v.capacity ≤ n)
    (i : Nat) (hi : i < v.size) (hin : i < n) :
    bufRead (Reserve n v).items i = bufRead v.items i := by
  rw [Reserve_of_le v n h]
  simp only
  rw [bufRead_map_range]
  simp [hin, hi]

theorem Reserve_bufRead_pad (v : SimpleVector) (n : Nat) (h : v.capacity ≤ n)
    (i : Nat) (hi : v.size ≤ i) :
    bufRead (Reserve n v).items i = 0 := by
  rw [Reserve_of_le v n h]
  simp only
  rw [bufRead_map_range]
  split
  · simp [Nat.not_lt.mpr hi]
  · rfl

/-! ### Preservation of the weak invariant `Inv` -/

theorem Inv_PushBack (v : SimpleVector) (x : Nat) (h : Inv v) :
    Inv (PushBack x v) := by
  rcases h with ⟨h1, h2⟩
  unfold Inv PushBack
  by_cases hlt : v.size < v.capacity
  · rw [if_pos hlt]
    dsimp only
    rw [length_bufWrite]
    omega
  · rw [if_neg hlt]
    have hc : v.capacity ≤ max 1 (2 * v.capacity) := by omega
    dsimp only
    rw [length_bufWrite, Reserve_size, Reserve_length_of_le v _ hc,
      Reserve_capacity_of_le v _ hc]
    omega

theorem VectorMoveRigth_Inv (v : SimpleVector) (pos : Nat) (h : Inv v) :
    Inv (VectorMoveRigth v pos).1 := by
  rcases h with ⟨h1, h2⟩
  unfold Inv VectorMoveRigth
  by_cases hlt : v.size < v.capacity
  · rw [if_pos hlt]
    dsimp only
    rw [length_moveBackwardShift]
    omega
  · rw [if_neg hlt]
    by_cases h0 : v.capacity = 0
    · rw [if_pos h0]
      have hc : v.capacity ≤ 1 := by omega
      dsimp only
      rw [Reserve_length_of_le v _ hc, Reserve_capacity_of_le v _ hc]
      omega
    · rw [if_neg h0]
      have hc : v.capacity ≤ 2 * v.capacity := by omega
      dsimp only
      rw [length_moveBackwardShift, Reserve_length_of_le v _ hc,
        Reserve_capacity_of_le v _ hc]
      omega

theorem Inv_Insert (v : SimpleVector) (pos x : Nat) (h : Inv v) :
    Inv (Insert v pos x).1 := by
  have h' := VectorMoveRigth_Inv v pos h
  rcases h' with ⟨h1, h2⟩
  unfold Inv Insert
  dsimp only
  rw [length_bufWrite]
  exact ⟨h1, h2⟩

theorem Inv_Erase (v : SimpleVector) (pos : Nat) (h : Inv v) :
    Inv (Erase v pos).1 := by
  rcases h with ⟨h1, h2⟩
  unfold Inv Erase
  dsimp only
  rw [length_moveForwardShift]
  omega

theorem Inv_PopBack (v : SimpleVector) (h : Inv v) : Inv (PopBack v) := by
  rcases h with ⟨h1, h2⟩
  unfold Inv PopBack
  split
  · exact ⟨h1, h2⟩
  · dsimp only
    omega

theorem Inv_Clear (v : SimpleVector) (h : Inv v) : Inv (Clear v) := by
  rcases h with ⟨_, h2⟩
  exact ⟨Nat.zero_le _, h2⟩

theorem Inv_Reserve (v : SimpleVector) (n : Nat) (h : Inv v) :
    Inv (Reserve n v) := by
  rcases h with ⟨h1, h2⟩
  by_cases hc : v.capacity ≤ n
  · unfold Inv
    rw [Reserve_size, Reserve_length_of_le v _ hc, Reserve_capacity_of_le v _ hc]
    omega
  · unfold Inv Reserve
    rw [if_neg hc]
    exact ⟨h1, h2⟩

theorem Inv_Resize (v : SimpleVector) (n : Nat) (h : Inv v) :
    Inv (Resize n v) := by
  rcases h with ⟨h1, h2⟩
  unfold Inv Resize
  by_cases hlt : n < v.size
  · rw [if_pos hlt]
    dsimp only
    omega
  · rw [if_neg hlt]
    by_cases hle : n ≤ v.capacity
    · rw [if_pos hle]
      dsimp only
      unfold moveToValueDest
      omega
    · rw [if_neg hle]
      have hc : v.capacity ≤ max n (2 * v.capacity) := by omega
      dsimp only
      unfold moveToValueDest
      rw [Reserve_length_of_le v _ hc, Reserve_capacity_of_le v _ hc]
      omega

theorem Inv_copyCtor (v : SimpleVector) (h : Inv v) : Inv (copyCtor v) := by
  rcases h with ⟨h1, _⟩
  refine ⟨h1, ?_⟩
  unfold copyCtor
  simpa using h1

/-- Claim C1 (amended): every state reachable by the public operations
satisfies `0 ≤ size ≤ capacity`, and the underlying block never has more
than `capacity` slots; it may however have fewer than `capacity` slots
(the copy and reservation-hint constructors allocate only `size` slots),
and the slots in `[size, capacity)` that do exist may hold stale previous
values rather than default values (shrinking only adjusts `size`). -/
theorem c1_invariant (v : SimpleVector) (h : Reachable v) :
    v.size ≤ v.capacity ∧ v.items.length ≤ v.capacity := by
  have key : Inv v := by
    induction h with
    | default_ctor => exact ⟨Nat.le_refl 0, Nat.le_refl 0⟩
    | size_ctor n =>
      refine ⟨Nat.le_refl n, ?_⟩
      simp [ctorSize, moveToValueDest, arrayPtrAlloc]
    | fill_ctor n x =>
      refine ⟨Nat.le_refl n, ?_⟩
      simp [ctorFill, moveToValueDest, arrayPtrAlloc]
    | list_ctor l => exact ⟨Nat.le_refl _, Nat.le_refl _⟩
    | copy_ctor _ ih => exact Inv_copyCtor _ ih
    | move_ctor_dst _ ih => exact ih
    | move_ctor_src _ _ => exact ⟨Nat.le_refl 0, Nat.le_refl 0⟩
    | reserve_ctor hint => exact ⟨Nat.zero_le _, Nat.zero_le _⟩
    | push x _ ih => exact Inv_PushBack _ x ih
    | ins pos x _ _ ih => exact Inv_Insert _ pos x ih
    | ers pos _ _ ih => exact Inv_Erase _ pos ih
    | pop _ ih => exact Inv_PopBack _ ih
    | clear _ ih => exact Inv_Clear _ ih
    | resize n _ ih => exact Inv_Resize _ n ih
    | reserve n _ ih => exact Inv_Reserve _ n ih
  exact key

/-- Claim C1, witness for the amended theorem at a concrete reachable
state. -/
theorem c1_invariant_witness :
    (PushBack 3 (ofList [1, 2])).size ≤ (PushBack 3 (ofList [1, 2])).capacity ∧
    (PushBack 3 (ofList [1, 2])).items.length ≤
      (PushBack 3 (ofList [1, 2])).capacity :=
  c1_invariant _ (Reachable.push 3 (Reachable.list_ctor [1, 2]))

/-- Claim C1, counterexample to the claim as stated: the reachable state
`Clear({7})` keeps the stale value `7` in slot `0 ∈ [size, capacity)`,
and the reachable state obtained by copy-constructing from it has
`capacity = 1` but a block of `0` slots, so `[size, capacity)` does not
even exist in the underlying buffer. -/
theorem c1_counterexample :
    Reachable (Clear (ofList [7])) ∧
    ¬ claimedInvariant (Clear (ofList [7])) ∧
    Reachable (copyCtor (Clear (ofList [7]))) ∧
    ¬ claimedInvariant (copyCtor (Clear (ofList [7]))) := by
  refine ⟨Reachable.clear (Reachable.list_ctor [7]), ?_,
    Reachable.copy_ctor (Reachable.clear (Reachable.list_ctor [7])), ?_⟩
  · intro hinv
    rcases hinv with ⟨-, -, hdef⟩
    have h7 := hdef 0 (Nat.le_refl 0) (by decide)
    simp [Clear, ofList, bufRead] at h7
  · intro hinv
    rcases hinv with ⟨-, hlen, -⟩
    simp [copyCtor, Clear, ofList] at hlen

/-- Claim C2 (code bug shown at the failing input): the reservation-hint
constructor reports `GetSize() = 0` and `GetCapacity() = h`, but its
member initializer `items_(size_)` allocates a block of `0` slots instead
of `h`; the subsequent `PushBack` keeps `capacity = h` (no reallocation)
yet stores the value out of bounds of the empty block (undefined
behaviour, modelled as a dropped store), so the vector does not hold the
pushed values `v₁ … v_h`.  Evaluated at `h = 1`, pushed value `5`. -/
theorem c2_reserve_hint_divergence :
    GetSize (reserveCtor 1) = 0 ∧
    GetCapacity (reserveCtor 1) = 1 ∧
    (reserveCtor 1).items.length = 0 ∧
    GetSize (PushBack 5 (reserveCtor 1)) = 1 ∧
    GetCapacity (PushBack 5 (reserveCtor 1)) = 1 ∧
    (PushBack 5 (reserveCtor 1)).items = [] ∧
    At (PushBack 5 (reserveCtor 1)) 0 ≠ Except.ok 5 := by
  decide

/-- Claim C3 (code bug shown at the failing input): on the
`new_size ≤ capacity_` path `Resize` runs
`std::move(end(), &items_[capacity_], Type())`, which moves the slots OUT
into a value destination instead of filling them with defaults, so after
`{7, 8}; Resize(1); Resize(2)` the index `1 ∈ [old size, n)` still reads
the stale value `8`, not a default-constructed value. -/
theorem c3_resize_divergence :
    GetSize (Resize 2 (Resize 1 (ofList [7, 8]))) = 2 ∧
    GetCapacity (Resize 2 (Resize 1 (ofList [7, 8]))) = 2 ∧
    opIndex (Resize 2 (Resize 1 (ofList [7, 8]))) 1 = 8 ∧
    At (Resize 2 (Resize 1 (ofList [7, 8]))) 1 = Except.ok 8 := by
  decide

/-- Claim C4 (code bug shown at the failing input): the `(n, value)`
constructor runs `std::move(begin(), end(), value)` with the fill value as
the destination argument of `std::move`, so the value is never written
into the buffer; the elements keep their allocation-default value `0`.
Evaluated at `n = 2`, `value = 5`. -/
theorem c4_fill_ctor_divergence :
    GetSize (ctorFill 2 5) = 2 ∧
    GetCapacity (ctorFill 2 5) = 2 ∧
    (ctorFill 2 5).items = [0, 0] ∧
    At (ctorFill 2 5) 0 = Except.ok 0 ∧
    At (ctorFill 2 5) 0 ≠ Except.ok 5 := by
  decide

/-- Claim C7: `At(i)` signals OutOfRange (throws, modelled as
`Except.error`) exactly when `i ≥ size`; otherwise it returns the element
at index `i` (the same value `operator[]` reads) and, being a read-only
accessor, leaves the container unchanged (it is a pure function of the
state here); in particular `At(size)` always signals OutOfRange and
`At(size - 1)` succeeds whenever `size > 0`. -/
theorem c7_at_bounds (v : SimpleVector) (i : Nat) :
    ((∃ e, At v i = Except.error e) ↔ v.size ≤ i) ∧
    (i < v.size → At v i = Except.ok (opIndex v i)) ∧
    (∃ e, At v (GetSize v) = Except.error e) ∧
    (0 < v.size → At v (GetSize v - 1) = Except.ok (opIndex v (GetSize v - 1))) := by
  unfold At GetSize opIndex
  refine ⟨⟨?_, ?_⟩, ?_, ?_, ?_⟩
  · rintro ⟨e, he⟩
    by_cases h : v.size ≤ i
    · exact h
    · rw [if_neg h] at he
      exact absurd he (by simp)
  · intro h
    rw [if_pos h]
    exact ⟨"Invalid index", rfl⟩
  · intro h
    rw [if_neg (by omega)]
  · rw [if_pos (Nat.le_refl _)]
    exact ⟨"Invalid index", rfl⟩
  · intro h
    rw [if_neg (by omega)]

/-- Claim C7, witness: instantiated at the one-element vector `{4}` with
index `0` (in range) and index `size` (out of range). -/
theorem c7_at_bounds_witness :
    At (ofList [4]) 0 = Except.ok (opIndex (ofList [4]) 0) ∧
    At (ofList [4]) (GetSize (ofList [4]) - 1) =
      Except.ok (opIndex (ofList [4]) (GetSize (ofList [4]) - 1)) ∧
    (∃ e, At (ofList [4]) (GetSize (ofList [4])) = Except.error e) :=
  ⟨(c7_at_bounds (ofList [4]) 0).2.1 (by decide),
   (c7_at_bounds (ofList [4]) 0).2.2.2 (by decide),
   (c7_at_bounds (ofList [4]) 0).2.2.1⟩

/-- Claim C10: self-assignment is a no-op.  Both `operator=` overloads are
guarded by `this != &rhs` (the `same` flag models that address equality),
so `v = v` and `v = std::move(v)` leave size, capacity and elements
unchanged. -/
theorem c10_self_assignment (v : SimpleVector) :
    opAssignCopy v v true = v ∧ opAssignMove v v true = (v, v) :=
  ⟨rfl, rfl⟩

/-! ### `PushBack` on well-formed vectors -/

theorem PushBack_size (v : SimpleVector) (x : Nat) :
    (PushBack x v).size = v.size + 1 := by
  unfold PushBack
  split
  · rfl
  · dsimp only
    rw [Reserve_size]

theorem PushBack_capacity (v : SimpleVector) (x : Nat) :
    (PushBack x v).capacity =
      if v.size < v.capacity then v.capacity else max 1 (2 * v.capacity) := by
  unfold PushBack
  split
  · rfl
  · dsimp only
    rw [Reserve_capacity_of_le v _ (by omega)]

theorem PushBack_WF (v : SimpleVector) (x : Nat) (h : WF v) :
    WF (PushBack x v) := by
  rcases h with ⟨h1, h2⟩
  unfold WF PushBack
  by_cases hlt : v.size < v.capacity
  · rw [if_pos hlt]
    dsimp only
    rw [length_bufWrite]
    omega
  · rw [if_neg hlt]
    have hc : v.capacity ≤ max 1 (2 * v.capacity) := by omega
    dsimp only
    rw [length_bufWrite, Reserve_size, Reserve_length_of_le v _ hc,
      Reserve_capacity_of_le v _ hc]
    omega

theorem PushBack_read_new (v : SimpleVector) (x : Nat) (h : WF v) :
    bufRead (PushBack x v).items v.size = x := by
  rcases h with ⟨h1, h2⟩
  unfold PushBack
  by_cases hlt : v.size < v.capacity
  · rw [if_pos hlt]
    dsimp only
    exact bufRead_bufWrite_self _ _ _ (by omega)
  · rw [if_neg hlt]
    have hc : v.capacity ≤ max 1 (2 * v.capacity) := by omega
    dsimp only
    rw [Reserve_size]
    exact bufRead_bufWrite_self _ _ _
      (by rw [Reserve_length_of_le v _ hc]; omega)

theorem PushBack_read_old (v : SimpleVector) (x i : Nat) (h : WF v)
    (hi : i < v.size) :
    bufRead (PushBack x v).items i = bufRead v.items i := by
  rcases h with ⟨h1, h2⟩
  unfold PushBack
  by_cases hlt : v.size < v.capacity
  · rw [if_pos hlt]
    dsimp only
    rw [bufRead_bufWrite_ne _ _ _ _ (by omega)]
  · rw [if_neg hlt]
    have hc : v.capacity ≤ max 1 (2 * v.capacity) := by omega
    dsimp only
    rw [Reserve_size, bufRead_bufWrite_ne _ _ _ _ (by omega)]
    exact Reserve_bufRead_of_le v _ hc i hi (by omega)

/-- One `foldl` step of `pushMany` from the right. -/
theorem pushMany_append (xs : List Nat) (x : Nat) (v : SimpleVector) :
    pushMany (xs ++ [x]) v = PushBack x (pushMany xs v) := by
  unfold pushMany
  rw [List.foldl_append]
  rfl

/-- The capacity-growth law for `k` pushes from the default-constructed
vector: the size is the number of pushes, the state is well formed, and
the capacity is the least value of the doubling-from-1 chain that is at
least the number of pushes. -/
theorem pushMany_chain (xs : List Nat) :
    (pushMany xs simpleVectorDefault).size = xs.length ∧
    WF (pushMany xs simpleVectorDefault) ∧
    isChainValue (pushMany xs simpleVectorDefault).capacity ∧
    xs.length ≤ (pushMany xs simpleVectorDefault).capacity ∧
    ∀ c, isChainValue c → xs.length ≤ c →
      (pushMany xs simpleVectorDefault).capacity ≤ c := by
  induction xs using List.reverseRecOn with
  | nil =>
    exact ⟨rfl, ⟨Nat.le_refl 0, rfl⟩, Or.inl rfl, Nat.le_refl 0,
      fun c _ _ => Nat.zero_le c⟩
  | append_singleton ys y ih =>
    obtain ⟨hsz, hwf, hchain, hge, hmin⟩ := ih
    rw [pushMany_append]
    set w := pushMany ys simpleVectorDefault with hw
    have hsz' := PushBack_size w y
    have hcap' := PushBack_capacity w y
    have hwf' := PushBack_WF w y hwf
    rw [List.length_append, List.length_singleton]
    refine ⟨by rw [hsz', hsz], hwf', ?_, ?_, ?_⟩
    · by_cases hlt : w.size < w.capacity
      · rw [hcap', if_pos hlt]
        exact hchain
      · rw [hcap', if_neg hlt]
        rcases hchain with h0 | ⟨i, hi⟩
        · rw [h0]
          exact Or.inr ⟨0, rfl⟩
        · rw [hi]
          refine Or.inr ⟨i + 1, ?_⟩
          have : 1 ≤ 2 ^ i := Nat.one_le_two_pow
          rw [pow_succ]
          omega
    · by_cases hlt : w.size < w.capacity
      · rw [hcap', if_pos hlt]
        omega
      · rw [hcap', if_neg hlt]
        have hwc : w.size = w.capacity := by omega
        omega
    · intro c hc hcge
      by_cases hlt : w.size < w.capacity
      · rw [hcap', if_pos hlt]
        exact hmin c hc (by omega)
      · rw [hcap', if_neg hlt]
        have hwc : w.size = w.capacity := by omega
        rcases hchain with h0 | ⟨i, hi⟩
        · rcases hc with hc0 | ⟨j, hj⟩
          · omega
          · have : 1 ≤ 2 ^ j := Nat.one_le_two_pow
            omega
        · rcases hc with hc0 | ⟨j, hj⟩
          · have : 1 ≤ 2 ^ i := Nat.one_le_two_pow
            omega
          · have h1 : 1 ≤ 2 ^ i := Nat.one_le_two_pow
            have hij : 2 ^ i < 2 ^ j := by omega
            have : i < j := (Nat.pow_lt_pow_iff_right (by omega)).mp hij
            have h2 : 2 ^ (i + 1) ≤ 2 ^ j := Nat.pow_le_pow_right (by omega) (by omega)
            rw [pow_succ] at h2
            omega

/-- Claim C5: on a well-formed vector (`size ≤ capacity` and a block of
exactly `capacity` slots), `PushBack(v)` appends `v` at the end — the size
grows by exactly 1, `At(new size − 1)` returns `v`, the previously stored
elements are unchanged, the capacity is unchanged when `size < capacity`
and becomes `max(1, 2·capacity)` otherwise — and, starting from the
default-constructed vector, after `k` consecutive pushes the capacity is
the smallest value of the doubling-from-1 chain `0 → 1 → 2 → 4 → 8 → …`
that is at least `k`. -/
theorem c5_pushback (v : SimpleVector) (x : Nat) (h : WF v) :
    GetSize (PushBack x v) = GetSize v + 1 ∧
    At (PushBack x v) (GetSize v) = Except.ok x ∧
    (∀ i, i < GetSize v → opIndex (PushBack x v) i = opIndex v i) ∧
    GetCapacity (PushBack x v) =
      (if GetSize v < GetCapacity v then GetCapacity v
       else max 1 (2 * GetCapacity v)) ∧
    ∀ xs : List Nat,
      isChainValue (GetCapacity (pushMany xs simpleVectorDefault)) ∧
      xs.length ≤ GetCapacity (pushMany xs simpleVectorDefault) ∧
      ∀ c, isChainValue c → xs.length ≤ c →
        GetCapacity (pushMany xs simpleVectorDefault) ≤ c := by
  refine ⟨PushBack_size v x, ?_, ?_, PushBack_capacity v x, ?_⟩
  · unfold At GetSize
    rw [PushBack_size v x, if_neg (by omega)]
    rw [PushBack_read_new v x h]
  · intro i hi
    unfold opIndex
    exact PushBack_read_old v x i h hi
  · intro xs
    obtain ⟨-, -, hchain, hge, hmin⟩ := pushMany_chain xs
    exact ⟨hchain, hge, hmin⟩

/-- Claim C5, witness: instantiated at the vector `{1, 2}` (size 2,
capacity 2, full block) and pushed value `9`. -/
theorem c5_pushback_witness :
    GetSize (PushBack 9 (ofList [1, 2])) = GetSize (ofList [1, 2]) + 1 ∧
    At (PushBack 9 (ofList [1, 2])) (GetSize (ofList [1, 2])) = Except.ok 9 ∧
    (∀ i, i < GetSize (ofList [1, 2]) →
      opIndex (PushBack 9 (ofList [1, 2])) i = opIndex (ofList [1, 2]) i) ∧
    GetCapacity (PushBack 9 (ofList [1, 2])) =
      (if GetSize (ofList [1, 2]) < GetCapacity (ofList [1, 2]) then
        GetCapacity (ofList [1, 2])
       else max 1 (2 * GetCapacity (ofList [1, 2]))) ∧
    ∀ xs : List Nat,
      isChainValue (GetCapacity (pushMany xs simpleVectorDefault)) ∧
      xs.length ≤ GetCapacity (pushMany xs simpleVectorDefault) ∧
      ∀ c, isChainValue c → xs.length ≤ c →
        GetCapacity (pushMany xs simpleVectorDefault) ≤ c :=
  c5_pushback (ofList [1, 2]) 9 (by decide)

/-! ### `Insert` on well-formed vectors -/

theorem Insert_snd (v : SimpleVector) (pos x : Nat) :
    (Insert v pos x).2 = pos := by
  unfold Insert VectorMoveRigth
  dsimp only
  split
  · rfl
  · split <;> rfl

theorem Insert_size (v : SimpleVector) (pos x : Nat) :
    (Insert v pos x).1.size = v.size + 1 := by
  unfold Insert VectorMoveRigth
  dsimp only
  split
  · rfl
  · split <;> rfl

theorem Insert_capacity (v : SimpleVector) (pos x : Nat)
    (h : v.size ≤ v.capacity) :
    (Insert v pos x).1.capacity =
      (if v.size < v.capacity then v.capacity
       else if v.capacity = 0 then 1 else 2 * v.capacity) := by
  unfold Insert VectorMoveRigth
  dsimp only
  split
  · rfl
  · split
    · rw [Reserve_capacity_of_le v _ (by omega)]
    · rw [Reserve_capacity_of_le v _ (by omega)]

theorem Insert_read_before (v : SimpleVector) (pos x i : Nat) (hw : WF v)
    (hpos : pos ≤ v.size) (hi : i < pos) :
    bufRead (Insert v pos x).1.items i = bufRead v.items i := by
  rcases hw with ⟨h1, h2⟩
  unfold Insert VectorMoveRigth
  dsimp only
  by_cases hlt : v.size < v.capacity
  · rw [if_pos hlt]
    dsimp only
    rw [bufRead_bufWrite_ne _ _ _ _ (by omega), bufRead_moveBackwardShift,
      if_pos (show i < v.items.length by omega),
      if_neg (show ¬(pos < i ∧ i ≤ v.size) by omega)]
  · rw [if_neg hlt]
    by_cases h0 : v.capacity = 0
    · exfalso; omega
    · rw [if_neg h0]
      dsimp only
      have hc : v.capacity ≤ 2 * v.capacity := by omega
      have hlen := Reserve_length_of_le v _ hc
      rw [bufRead_bufWrite_ne _ _ _ _ (by omega), bufRead_moveBackwardShift,
        if_pos (show i < (Reserve (2 * v.capacity) v).items.length by omega),
        if_neg (show ¬(pos < i ∧ i ≤ v.size) by omega)]
      exact Reserve_bufRead_of_le v _ hc i (by omega) (by omega)

theorem Insert_read_at (v : SimpleVector) (pos x : Nat) (hw : WF v)
    (_hpos : pos ≤ v.size) :
    bufRead (Insert v pos x).1.items pos = x := by
  rcases hw with ⟨h1, h2⟩
  unfold Insert VectorMoveRigth
  dsimp only
  by_cases hlt : v.size < v.capacity
  · rw [if_pos hlt]
    dsimp only
    exact bufRead_bufWrite_self _ _ _
      (by rw [length_moveBackwardShift]; omega)
  · rw [if_neg hlt]
    by_cases h0 : v.capacity = 0
    · rw [if_pos h0]
      dsimp only
      have hc : v.capacity ≤ 1 := by omega
      exact bufRead_bufWrite_self _ _ _
        (by rw [Reserve_length_of_le v _ hc]; omega)
    · rw [if_neg h0]
      dsimp only
      have hc : v.capacity ≤ 2 * v.capacity := by omega
      exact bufRead_bufWrite_self _ _ _
        (by rw [length_moveBackwardShift, Reserve_length_of_le v _ hc]; omega)

theorem Insert_read_after (v : SimpleVector) (pos x i : Nat) (hw : WF v)
    (_hpos : pos ≤ v.size) (hi1 : pos ≤ i) (hi2 : i < v.size) :
    bufRead (Insert v pos x).1.items (i + 1) = bufRead v.items i := by
  rcases hw with ⟨h1, h2⟩
  unfold Insert VectorMoveRigth
  dsimp only
  by_cases hlt : v.size < v.capacity
  · rw [if_pos hlt]
    dsimp only
    rw [bufRead_bufWrite_ne _ _ _ _ (by omega), bufRead_moveBackwardShift,
      if_pos (show i + 1 < v.items.length by omega),
      if_pos (show pos < i + 1 ∧ i + 1 ≤ v.size by omega),
      Nat.add_sub_cancel]
  · rw [if_neg hlt]
    by_cases h0 : v.capacity = 0
    · exfalso; omega
    · rw [if_neg h0]
      dsimp only
      have hc : v.capacity ≤ 2 * v.capacity := by omega
      have hlen := Reserve_length_of_le v _ hc
      rw [bufRead_bufWrite_ne _ _ _ _ (by omega), bufRead_moveBackwardShift,
        if_pos (show i + 1 < (Reserve (2 * v.capacity) v).items.length by omega),
        if_pos (show pos < i + 1 ∧ i + 1 ≤ v.size by omega),
        Nat.add_sub_cancel]
      exact Reserve_bufRead_of_le v _ hc i (by omega) (by omega)

/-- Claim C6: on a well-formed vector, for every valid position
`pos ∈ [begin, end]`, `Insert(pos, value)` shifts the elements at and
after `pos` one slot to the right, places the value at `pos`, increases
the size by 1, grows the capacity (doubling, or to 1 from capacity 0)
exactly when `size = capacity`, and returns the position of the inserted
element; on `{1, 2, 3}`, `Insert(begin() + 1, 9)` yields `{1, 9, 2, 3}`
with size 4. -/
theorem c6_insert (v : SimpleVector) (pos x : Nat) (hw : WF v)
    (hpos : pos ≤ GetSize v) :
    GetSize (Insert v pos x).1 = GetSize v + 1 ∧
    (Insert v pos x).2 = pos ∧
    (∀ i, i < pos → opIndex (Insert v pos x).1 i = opIndex v i) ∧
    opIndex (Insert v pos x).1 pos = x ∧
    (∀ i, pos ≤ i → i < GetSize v →
      opIndex (Insert v pos x).1 (i + 1) = opIndex v i) ∧
    GetCapacity (Insert v pos x).1 =
      (if GetSize v < GetCapacity v then GetCapacity v
       else if GetCapacity v = 0 then 1 else 2 * GetCapacity v) ∧
    elems (Insert (ofList [1, 2, 3]) 1 9).1 = [1, 9, 2, 3] ∧
    GetSize (Insert (ofList [1, 2, 3]) 1 9).1 = 4 := by
  refine ⟨Insert_size v pos x, Insert_snd v pos x, ?_, ?_, ?_, ?_, by decide, by decide⟩
  · intro i hi
    exact Insert_read_before v pos x i hw hpos hi
  · exact Insert_read_at v pos x hw hpos
  · intro i hi1 hi2
    exact Insert_read_after v pos x i hw hpos hi1 hi2
  · exact Insert_capacity v pos x hw.1

/-- Claim C6, witness: instantiated at the vector `{1, 2, 3}`, position
`1`, inserted value `9`. -/
theorem c6_insert_witness :
    GetSize (Insert (ofList [1, 2, 3]) 1 9).1 = GetSize (ofList [1, 2, 3]) + 1 ∧
    (Insert (ofList [1, 2, 3]) 1 9).2 = 1 ∧
    (∀ i, i < 1 →
      opIndex (Insert (ofList [1, 2, 3]) 1 9).1 i = opIndex (ofList [1, 2, 3]) i) ∧
    opIndex (Insert (ofList [1, 2, 3]) 1 9).1 1 = 9 ∧
    (∀ i, 1 ≤ i → i < GetSize (ofList [1, 2, 3]) →
      opIndex (Insert (ofList [1, 2, 3]) 1 9).1 (i + 1) =
        opIndex (ofList [1, 2, 3]) i) ∧
    GetCapacity (Insert (ofList [1, 2, 3]) 1 9).1 =
      (if GetSize (ofList [1, 2, 3]) < GetCapacity (ofList [1, 2, 3]) then
        GetCapacity (ofList [1, 2, 3])
       else if GetCapacity (ofList [1, 2, 3]) = 0 then 1
       else 2 * GetCapacity (ofList [1, 2, 3])) ∧
    elems (Insert (ofList [1, 2, 3]) 1 9).1 = [1, 9, 2, 3] ∧
    GetSize (Insert (ofList [1, 2, 3]) 1 9).1 = 4 :=
  c6_insert (ofList [1, 2, 3]) 1 9 (by decide) (by decide)

/-! ### Comparison operators -/

theorem elems_length (v : SimpleVector) : (elems v).length = v.size := by
  unfold elems; simp

theorem eqSV_iff_pointwise (a b : SimpleVector) :
    eqSV a b = true ↔
      (a.size = b.size ∧ ∀ i, i < a.size → opIndex a i = opIndex b i) := by
  unfold eqSV
  rw [Bool.and_eq_true, beq_iff_eq, List.all_eq_true]
  constructor
  · rintro ⟨hsz, hall⟩
    exact ⟨hsz, fun i hi => eq_of_beq (hall i (List.mem_range.mpr hi))⟩
  · rintro ⟨hsz, hp⟩
    exact ⟨hsz, fun i hi => beq_iff_eq.mpr (hp i (List.mem_range.mp hi))⟩

theorem lexCompareLt_iff_lex (l1 l2 : List Nat) :
    lexCompareLt l1 l2 = true ↔ List.Lex (· < ·) l1 l2 := by
  induction l1 generalizing l2 with
  | nil =>
    cases l2 with
    | nil =>
      constructor
      · intro h; simp [lexCompareLt] at h
      · intro h; cases h
    | cons b bs =>
      constructor
      · intro _; exact List.Lex.nil
      · intro _; rfl
  | cons a as ih =>
    cases l2 with
    | nil =>
      constructor
      · intro h; simp [lexCompareLt] at h
      · intro h; cases h
    | cons b bs =>
      by_cases hab : a < b
      · constructor
        · intro _; exact List.Lex.rel hab
        · intro _; simp [lexCompareLt, hab]
      · by_cases hba : b < a
        · constructor
          · intro h
            simp [lexCompareLt, hab, hba] at h
          · intro h
            cases h with
            | cons h' => omega
            | rel h' => omega
        · have heq : a = b := by omega
          subst heq
          constructor
          · intro h
            have h' : lexCompareLt as bs = true := by
              simpa [lexCompareLt, hab, hba] using h
            exact List.Lex.cons ((ih bs).mp h')
          · intro h
            have h' : lexCompareLt as bs = true := by
              cases h with
              | cons htail => exact (ih bs).mpr htail
              | rel hrel => omega
            simpa [lexCompareLt, hab, hba] using h'

/-- Claim C9: `operator==` holds exactly when the sizes agree and the
elements at each index in `[0, size)` agree, independently of the two
capacities (replacing either capacity changes neither comparison), and
`operator<` is lexicographic comparison (`List.Lex` on `<`) of the first
`size` elements of each side. -/
theorem c9_compare (a b : SimpleVector) :
    (eqSV a b = true ↔
      (a.size = b.size ∧ ∀ i, i < a.size → opIndex a i = opIndex b i)) ∧
    (∀ c c' : Nat,
      eqSV ⟨a.size, c, a.items⟩ ⟨b.size, c', b.items⟩ = eqSV a b ∧
      ltSV ⟨a.size, c, a.items⟩ ⟨b.size, c', b.items⟩ = ltSV a b) ∧
    (ltSV a b = true ↔ List.Lex (· < ·) (elems a) (elems b)) := by
  refine ⟨eqSV_iff_pointwise a b, ?_, lexCompareLt_iff_lex _ _⟩
  intro c c'
  exact ⟨rfl, rfl⟩

/-- Claim C9, witness: `{1}` against `Reserve(3)` applied to `{1}` — the
same element sequence under different capacities. -/
theorem c9_compare_witness :
    (eqSV (ofList [1]) (Reserve 3 (ofList [1])) = true ↔
      ((ofList [1]).size = (Reserve 3 (ofList [1])).size ∧
        ∀ i, i < (ofList [1]).size →
          opIndex (ofList [1]) i = opIndex (Reserve 3 (ofList [1])) i)) ∧
    (∀ c c' : Nat,
      eqSV ⟨(ofList [1]).size, c, (ofList [1]).items⟩
          ⟨(Reserve 3 (ofList [1])).size, c', (Reserve 3 (ofList [1])).items⟩ =
        eqSV (ofList [1]) (Reserve 3 (ofList [1])) ∧
      ltSV ⟨(ofList [1]).size, c, (ofList [1]).items⟩
          ⟨(Reserve 3 (ofList [1])).size, c', (Reserve 3 (ofList [1])).items⟩ =
        ltSV (ofList [1]) (Reserve 3 (ofList [1]))) ∧
    (ltSV (ofList [1]) (Reserve 3 (ofList [1])) = true ↔
      List.Lex (· < ·) (elems (ofList [1])) (elems (Reserve 3 (ofList [1])))) :=
  c9_compare (ofList [1]) (Reserve 3 (ofList [1]))

/-- Claim C10, witness: self-assignment of the concrete vector `{1, 2}`. -/
theorem c10_self_assignment_witness :
    opAssignCopy (ofList [1, 2]) (ofList [1, 2]) true = ofList [1, 2] ∧
    opAssignMove (ofList [1, 2]) (ofList [1, 2]) true =
      (ofList [1, 2], ofList [1, 2]) :=
  c10_self_assignment (ofList [1, 2])

/-! ### Store lemmas for the aliasing view -/

theorem storeGetD_append_lt (s : Store) (b : List Nat) (j : Nat)
    (h : j < s.length) : (s ++ [b]).getD j [] = s.getD j [] := by
  rw [List.getD_eq_getElem?_getD, List.getElem?_append_left h,
    ← List.getD_eq_getElem?_getD]

theorem storeGetD_append_last (s : Store) (b : List Nat) :
    (s ++ [b]).getD s.length [] = b := by
  rw [List.getD_eq_getElem?_getD]
  simp

theorem storeGetD_set_ne (s : Store) (j k : Nat) (b : List Nat) (h : j ≠ k) :
    (s.set j b).getD k [] = s.getD k [] := by
  rw [List.getD_eq_getElem?_getD, List.getElem?_set_ne h,
    ← List.getD_eq_getElem?_getD]

/-- Every mutating operation writes only at its own object's address. -/
theorem applyMutRef_frame (m : MutOp) (s : Store) (r : SVRef) (k : Nat)
    (h : r.buf ≠ k) :
    ((applyMutRef m s r).1).getD k [] = s.getD k [] := by
  unfold applyMutRef
  exact storeGetD_set_ne s r.buf k _ h

/-- Claim C8: copy construction is a deep copy with independent storage —
the copy lives at a fresh address, compares equal (`operator==`) to the
source, and any subsequent mutating public operation (`PushBack`,
`Insert`, `Erase`, `PopBack`, `Clear`, `Resize`, `Reserve`) applied to the
copy leaves the original's size, capacity and elements unchanged, and
vice versa. -/
theorem c8_deep_copy (s : Store) (r : SVRef) (m : MutOp)
    (hr : r.buf < s.length) :
    eqSV (derefSV (copyCtorRef s r).1 (copyCtorRef s r).2)
      (derefSV (copyCtorRef s r).1 r) = true ∧
    (copyCtorRef s r).2.buf ≠ r.buf ∧
    derefSV (applyMutRef m (copyCtorRef s r).1 (copyCtorRef s r).2).1 r =
      derefSV (copyCtorRef s r).1 r ∧
    derefSV (applyMutRef m (copyCtorRef s r).1 r).1 (copyCtorRef s r).2 =
      derefSV (copyCtorRef s r).1 (copyCtorRef s r).2 := by
  have hne : s.length ≠ r.buf := by omega
  have hcopybuf : ((copyCtorRef s r).1).getD ((copyCtorRef s r).2).buf [] =
      (copyCtor (derefSV s r)).items := by
    unfold copyCtorRef
    exact storeGetD_append_last s _
  have horig : ((copyCtorRef s r).1).getD r.buf [] = s.getD r.buf [] := by
    unfold copyCtorRef
    exact storeGetD_append_lt s _ r.buf hr
  refine ⟨?_, by unfold copyCtorRef; exact hne, ?_, ?_⟩
  · rw [eqSV_iff_pointwise]
    unfold derefSV
    rw [hcopybuf, horig]
    constructor
    · rfl
    · intro i hi
      unfold copyCtor at hi ⊢
      unfold opIndex
      dsimp only at hi ⊢
      rw [bufRead_map_range]
      unfold derefSV
      dsimp only
      rw [if_pos (show i < r.size by
        simpa [copyCtorRef, copyCtor, derefSV] using hi)]
  · unfold derefSV
    rw [applyMutRef_frame m _ _ r.buf (by unfold copyCtorRef; exact hne)]
  · unfold derefSV
    rw [applyMutRef_frame m _ _ ((copyCtorRef s r).2).buf
      (by unfold copyCtorRef; dsimp only; omega)]

/-- Claim C8, witness: a store holding one block `[1, 2]`, an object of
size 2 and capacity 2 at address 0, and the mutating operation
`PushBack 7`. -/
theorem c8_deep_copy_witness :
    eqSV (derefSV (copyCtorRef [[1, 2]] ⟨2, 2, 0⟩).1 (copyCtorRef [[1, 2]] ⟨2, 2, 0⟩).2)
      (derefSV (copyCtorRef [[1, 2]] ⟨2, 2, 0⟩).1 ⟨2, 2, 0⟩) = true ∧
    (copyCtorRef [[1, 2]] ⟨2, 2, 0⟩).2.buf ≠ (⟨2, 2, 0⟩ : SVRef).buf ∧
    derefSV (applyMutRef (MutOp.push 7) (copyCtorRef [[1, 2]] ⟨2, 2, 0⟩).1
        (copyCtorRef [[1, 2]] ⟨2, 2, 0⟩).2).1 ⟨2, 2, 0⟩ =
      derefSV (copyCtorRef [[1, 2]] ⟨2, 2, 0⟩).1 ⟨2, 2, 0⟩ ∧
    derefSV (applyMutRef (MutOp.push 7) (copyCtorRef [[1, 2]] ⟨2, 2, 0⟩).1
        ⟨2, 2, 0⟩).1 (copyCtorRef [[1, 2]] ⟨2, 2, 0⟩).2 =
      derefSV (copyCtorRef [[1, 2]] ⟨2, 2, 0⟩).1 (copyCtorRef [[1, 2]] ⟨2, 2, 0⟩).2 :=
  c8_deep_copy [[1, 2]] ⟨2, 2, 0⟩ (MutOp.push 7) (by decide)

end SimpleVector
